import Mathlib

/-!
Shallow embedding of the One-at-a-Time Machine coordination layer.

The repository carries two ledger schemas:

* `scripts/node_manager.py` (`NodeManager`): one `queue` list of task records,
  each carrying its own `status` field (`"available"`/`"claimed"`), a `nodes`
  list and a separate `completed` list of completion records.
* `scripts/sync_manager.py` (`SyncManager`): a `queue` object with three url
  lists `pending`/`active`/`completed` and a `nodes` mapping.

Both are embedded here.  Timestamps (ISO-8601 strings in the Python code,
compared after conversion to seconds) are modelled as integers; battery
levels and priorities as integers.  Python dictionaries keyed by insertion
order are modelled as association lists, Python lists as Lean lists.
-/

/-- Task record of the `node_manager.py` schema (an entry of
`ledger["queue"]`).  `priority` is optional because the code reads it with
`t.get("priority", 0)`. -/
structure NMTask where
  id : String
  title : String
  priority : Option Int
  status : String
  claimed_by : Option String
  claimed_at : Option Int
  deriving Repr, DecidableEq

/-- Node record of the `node_manager.py` schema (an entry of
`ledger["nodes"]`), as built by `NodeManager.heartbeat`. -/
structure NMNode where
  device_id : String
  last_seen : Int
  battery : Int
  current_task : Option String
  capabilities : List String
  deriving Repr, DecidableEq

/-- Completion record appended to `ledger["completed"]` by
`NodeManager.complete_task`. -/
structure NMCompleted where
  id : String
  title : String
  completed_by : String
  completed_at : Int
  solution_path : String
  priority : Option Int
  deriving Repr, DecidableEq

/-- The `node_manager.py` ledger: `{"queue": [...], "nodes": [...],
"completed": [...], "last_updated": ...}`. -/
structure NMLedger where
  queue : List NMTask
  nodes : List NMNode
  completed : List NMCompleted
  last_updated : Int
  deriving Repr, DecidableEq

/-- Sort key used by `NodeManager.claim_next_task`:
`t.get("priority", 0)`. -/
def taskKey (t : NMTask) : Int := t.priority.getD 0

/-- The three claim assignments of `NodeManager.claim_next_task`. -/
def claimedCopy (t : NMTask) (deviceId : String) (now : Int) : NMTask :=
  { t with status := "claimed", claimed_by := some deviceId, claimed_at := some now }

/-- The three release assignments of `NodeManager.cleanup_abandoned_tasks`. -/
def releasedCopy (t : NMTask) : NMTask :=
  { t with status := "available", claimed_by := none, claimed_at := none }

/-- The insert-time assignments of `NodeManager.add_task`. -/
def availableCopy (task : NMTask) : NMTask :=
  { task with status := "available", claimed_by := none, claimed_at := none }

/-- Embeds `available_tasks.sort(key=lambda t: t.get("priority", 0),
reverse=True)` followed by `available_tasks[0]` in
`NodeManager.claim_next_task`.  Python's sort is stable, also with
`reverse=True`, so the head of the sorted list is the earliest task in queue
order among those with maximal key.  Returns that task together with its
index in the full queue, or `none` when no task has status `"available"`. -/
def bestAvailableIdx : List NMTask → Option (Nat × NMTask)
  | [] => none
  | t :: ts =>
    match bestAvailableIdx ts with
    | none => if t.status = "available" then some (0, t) else none
    | some (j, b) =>
      if t.status = "available" then
        if taskKey b > taskKey t then some (j + 1, b) else some (0, t)
      else some (j + 1, b)

/-- `NodeManager.claim_next_task`: skip when battery is below the
configured threshold; otherwise claim the highest-priority available task
(ties broken by queue order), setting `status`/`claimed_by`/`claimed_at`
and saving the ledger (`save_ledger` rewrites `last_updated`).  Returns the
claimed task and the resulting ledger; on the skip paths the ledger is
returned unchanged (the code does not call `save_ledger` there). -/
def nmClaimNextTask (minBattery battery now : Int) (deviceId : String) (l : NMLedger) :
    Option NMTask × NMLedger :=
  if battery < minBattery then (none, l)
  else
    match bestAvailableIdx l.queue with
    | none => (none, l)
    | some (i, t) =>
      let t2 : NMTask := claimedCopy t deviceId now
      (some t2, { l with queue := l.queue.set i t2, last_updated := now })

/-- `NodeManager.complete_task`: pop the first queue entry whose `id`
matches (the code iterates over `ledger["queue"]` and pops the first
matching index), append a completion record carrying `completed_by` =
the calling device, and save.  When no entry matches, nothing is saved.
The Boolean reports whether the ledger was saved. -/
def nmCompleteTask (deviceId : String) (now : Int) (solutionPath taskId : String)
    (l : NMLedger) : NMLedger × Bool :=
  match l.queue.find? (fun t => t.id == taskId) with
  | none => (l, false)
  | some t =>
    ({ queue := l.queue.eraseP (fun u => u.id == taskId)
       nodes := l.nodes
       completed := l.completed ++
         [{ id := taskId, title := t.title, completed_by := deviceId,
            completed_at := now, solution_path := solutionPath, priority := t.priority }]
       last_updated := now }, true)

/-- `NodeManager.add_task`: skip when some queue entry already has the same
`id` (the `completed` list is not consulted); otherwise overwrite
`status`/`claimed_by`/`claimed_at`, append to the queue and save.  The
Boolean reports whether the ledger was saved. -/
def nmAddTask (task : NMTask) (now : Int) (l : NMLedger) : NMLedger × Bool :=
  if l.queue.any (fun t => t.id == task.id) then (l, false)
  else
    ({ l with
        queue := l.queue ++ [availableCopy task]
        last_updated := now }, true)

/-- Per-task body of the loop in `NodeManager.cleanup_abandoned_tasks`:
a claimed task with a truthy `claimed_at` whose claiming node is absent
from `ledger["nodes"]`, or whose claim is older than the timeout, is reset
in place to `"available"` with `claimed_by`/`claimed_at` cleared. -/
def reclaimTask (timeout now : Int) (nodes : List NMNode) (t : NMTask) : NMTask :=
  if t.status = "claimed" then
    match t.claimed_at with
    | some claimedTime =>
      if (nodes.find? (fun n => some n.device_id == t.claimed_by)).isNone
          ∨ now - claimedTime > timeout then
        releasedCopy t
      else t
    | none => t
  else t

/-- `NodeManager.cleanup_abandoned_tasks`: the `for task in ledger["queue"]`
loop mutates each entry in place, so the queue order is untouched. -/
def nmCleanupAbandoned (timeout now : Int) (l : NMLedger) : NMLedger :=
  { l with queue := l.queue.map (reclaimTask timeout now l.nodes) }

/-- The empty ledger synthesized by `NodeManager.load_ledger` (and by
`initialize_ledger`) when the file is missing or fails to parse. -/
def freshNMLedger (now : Int) : NMLedger :=
  { queue := [], nodes := [], completed := [], last_updated := now }

/-- Node record of the `sync_manager.py` schema.  A fresh entry is created
as `{"completed_tasks": 0}` and `update_node_status_in_ledger` immediately
fills the remaining fields, so all fields are materialized here;
`last_seen` is optional because `cleanup_stale_nodes` treats an unparsable
or missing timestamp as stale. -/
structure SMNode where
  completed_tasks : Int
  last_seen : Option Int
  battery_level : Int
  status : String
  current_task : Option String
  deriving Repr, DecidableEq

/-- The `sync_manager.py` ledger: `{"nodes": {...}, "queue": {"pending":
[...], "active": [...], "completed": [...]}, "last_updated": ...}`.  Tasks
are bare url strings; the node mapping is an insertion-ordered association
list, as a Python dict is. -/
structure SMLedger where
  nodes : List (String × SMNode)
  pending : List String
  active : List String
  completed : List String
  last_updated : Int
  deriving Repr, DecidableEq

/-- Python dict lookup `nodes.get(device_id)` on the insertion-ordered
association list. -/
def smLookup (dev : String) : List (String × SMNode) → Option SMNode
  | [] => none
  | (k, v) :: rest => if k = dev then some v else smLookup dev rest

/-- Python truthiness of an optional string, as in
`if our_node.get("current_task"):` — `None` and `""` are falsy. -/
def optStrTruthy : Option String → Bool
  | none => false
  | some s => !(s == "")

/-- `SyncManager.update_node_status_in_ledger` without the timestamp write:
upsert this node's entry, overwriting `last_seen`, `battery_level`,
`status` and `current_task` and keeping `completed_tasks` (0 for a fresh
entry).  A present key keeps its position, a new key is appended, matching
Python dict semantics. -/
def smUpsertNode (dev status0 : String) (task : Option String) (now battery : Int)
    (nodes : List (String × SMNode)) : List (String × SMNode) :=
  let upd : SMNode → SMNode := fun n =>
    { n with last_seen := some now, battery_level := battery,
             status := status0, current_task := task }
  match smLookup dev nodes with
  | some _ => nodes.map (fun p => if p.1 = dev then (p.1, upd p.2) else p)
  | none =>
    nodes ++ [(dev, upd { completed_tasks := 0, last_seen := none, battery_level := 0,
                          status := "", current_task := none })]

/-- `SyncManager.update_node_status_in_ledger`: node upsert plus
`ledger["last_updated"] = now`. -/
def smUpdateNodeStatus (dev status0 : String) (task : Option String) (now battery : Int)
    (l : SMLedger) : SMLedger :=
  { l with nodes := smUpsertNode dev status0 task now battery l.nodes, last_updated := now }

/-- The `completed_tasks` increment in `SyncManager.complete_task`
(`if self.device_id in ledger["nodes"]: ... += 1`). -/
def smIncCompleted (dev : String) (nodes : List (String × SMNode)) :
    List (String × SMNode) :=
  nodes.map (fun p =>
    if p.1 = dev then (p.1, { p.2 with completed_tasks := p.2.completed_tasks + 1 }) else p)

/-- `SyncManager.claim_next_task`: when this node's entry already records a
truthy `current_task` it is returned with no write; when the pending list
is empty the result is `none` with no write; otherwise the head of
`pending` moves to `active`, the node entry is set to `working` on that
task and the ledger is written.  The Boolean reports whether
`_write_ledger` ran. -/
def smClaimNextTask (dev : String) (now battery : Int) (l : SMLedger) :
    Option String × SMLedger × Bool :=
  let ct := (smLookup dev l.nodes).bind (fun n => n.current_task)
  if optStrTruthy ct then (ct, l, false)
  else
    match l.pending with
    | [] => (none, l, false)
    | t :: rest =>
      let l2 := smUpdateNodeStatus dev "working" (some t) now battery
        { l with pending := rest, active := l.active ++ [t] }
      (some t, l2, true)

/-- `SyncManager.complete_task`: remove the url from `active` when present
(first occurrence), append it to `completed`, set this node to `idle` with
no current task, then increment this node's `completed_tasks`.  No
ownership condition appears anywhere on this path. -/
def smCompleteTask (dev url : String) (now battery : Int) (l : SMLedger) : SMLedger :=
  let l2 := smUpdateNodeStatus dev "idle" none now battery
    { l with active := l.active.erase url, completed := l.completed ++ [url] }
  { l2 with nodes := smIncCompleted dev l2.nodes }

/-- `SyncManager.add_tasks_to_queue`: append each url whose value is not
already in `pending` (as mutated so far), `active` or `completed`. -/
def smAddTasks (urls : List String) (l : SMLedger) : SMLedger :=
  { l with
      pending := urls.foldl
        (fun pend url =>
          if pend.contains url || l.active.contains url || l.completed.contains url
          then pend else pend ++ [url])
        l.pending }

/-- Staleness test of `SyncManager.cleanup_stale_nodes`: last seen more
than 1800 seconds ago, or an unusable timestamp (the `except` branch also
marks the node stale). -/
def smStale (now : Int) (n : SMNode) : Bool :=
  match n.last_seen with
  | none => true
  | some ls => decide (now - ls > 1800)

/-- Reclaim step for one stale node in `cleanup_stale_nodes`: a truthy
`current_task` that is still in `active` is removed from `active` and
inserted at index 0 of `pending`. -/
def smReclaimNode (n : SMNode) (pa : List String × List String) :
    List String × List String :=
  match n.current_task with
  | some t =>
    if !(t == "") && pa.2.contains t then (t :: pa.1, pa.2.erase t) else pa
  | none => pa

/-- `SyncManager.cleanup_stale_nodes`: collect the stale entries in
mapping order, reclaim each of their current tasks in that order, drop the
stale entries, and write only when at least one node was stale.  The
Boolean reports whether `_write_ledger` ran. -/
def smCleanupStale (now : Int) (l : SMLedger) : SMLedger × Bool :=
  let stale := l.nodes.filter (fun p => smStale now p.2)
  if stale.isEmpty then (l, false)
  else
    let pa := stale.foldl (fun pa p => smReclaimNode p.2 pa) (l.pending, l.active)
    ({ l with pending := pa.1, active := pa.2,
              nodes := l.nodes.filter (fun p => !(smStale now p.2)) }, true)

/-- The fresh ledger written by `SyncManager._initialize_ledger`. -/
def freshSMLedger (now : Int) : SMLedger :=
  { nodes := [], pending := [], active := [], completed := [], last_updated := now }

/-- State of a backing file: absent, present but not parseable, or
holding a parsed value. -/
inductive FileState (α : Type) where
  | missing : FileState α
  | malformed : FileState α
  | good : α → FileState α
  deriving Repr, DecidableEq

/-- `SyncManager._read_ledger`: a parseable file is returned as is; a
missing or malformed one triggers `_initialize_ledger` (which writes a
fresh ledger) followed by one re-read that now succeeds.  Returns the
ledger together with the resulting file state. -/
def smReadLedger (now : Int) (fs : FileState SMLedger) : SMLedger × FileState SMLedger :=
  match fs with
  | .good l => (l, fs)
  | _ => (freshSMLedger now, .good (freshSMLedger now))

/-- JSON value tree, the shape `json.dump`/`json.load` exchange.  Numbers
are restricted to the integers this embedding uses for timestamps,
batteries and priorities. -/
inductive Json where
  | null : Json
  | str : String → Json
  | num : Int → Json
  | arr : List Json → Json
  | obj : List (String × Json) → Json

/-- Optional string to JSON, as `json.dump` renders `None` / `str`. -/
def jOfStrOpt : Option String → Json
  | none => .null
  | some s => .str s

/-- Optional integer to JSON. -/
def jOfNumOpt : Option Int → Json
  | none => .null
  | some n => .num n

/-- Serialization of one queue entry of the `node_manager.py` ledger. -/
def jOfTask (t : NMTask) : Json :=
  .obj [("id", .str t.id), ("title", .str t.title), ("priority", jOfNumOpt t.priority),
        ("status", .str t.status), ("claimed_by", jOfStrOpt t.claimed_by),
        ("claimed_at", jOfNumOpt t.claimed_at)]

/-- Serialization of one node entry of the `node_manager.py` ledger. -/
def jOfNode (n : NMNode) : Json :=
  .obj [("device_id", .str n.device_id), ("last_seen", .num n.last_seen),
        ("battery", .num n.battery), ("current_task", jOfStrOpt n.current_task),
        ("capabilities", .arr (n.capabilities.map Json.str))]

/-- Serialization of one completion record of the `node_manager.py`
ledger. -/
def jOfCompleted (c : NMCompleted) : Json :=
  .obj [("id", .str c.id), ("title", .str c.title), ("completed_by", .str c.completed_by),
        ("completed_at", .num c.completed_at), ("solution_path", .str c.solution_path),
        ("priority", jOfNumOpt c.priority)]

/-- Serialization of the whole `node_manager.py` ledger. -/
def jOfLedger (l : NMLedger) : Json :=
  .obj [("queue", .arr (l.queue.map jOfTask)), ("nodes", .arr (l.nodes.map jOfNode)),
        ("completed", .arr (l.completed.map jOfCompleted)),
        ("last_updated", .num l.last_updated)]

/-- Key lookup in a JSON object field list. -/
def jField : List (String × Json) → String → Option Json
  | [], _ => none
  | (k, v) :: rest, key => if k = key then some v else jField rest key

/-- Read a JSON string. -/
def jAsStr : Json → Option String
  | .str s => some s
  | _ => none

/-- Read a JSON integer. -/
def jAsNum : Json → Option Int
  | .num n => some n
  | _ => none

/-- Read a JSON string-or-null. -/
def jAsStrOpt : Json → Option (Option String)
  | .null => some none
  | .str s => some (some s)
  | _ => none

/-- Read a JSON integer-or-null. -/
def jAsNumOpt : Json → Option (Option Int)
  | .null => some none
  | .num n => some (some n)
  | _ => none

/-- Parse a list of JSON strings element-wise. -/
def strListAux : List Json → Option (List String)
  | [] => some []
  | x :: rest => do
    let s ← jAsStr x
    let r ← strListAux rest
    some (s :: r)

/-- Read a JSON array of strings. -/
def jAsStrList : Json → Option (List String)
  | .arr xs => strListAux xs
  | _ => none

/-- Parse one queue entry. -/
def taskOfJson : Json → Option NMTask
  | .obj fields => do
    let id ← (jField fields "id").bind jAsStr
    let title ← (jField fields "title").bind jAsStr
    let priority ← (jField fields "priority").bind jAsNumOpt
    let status0 ← (jField fields "status").bind jAsStr
    let cb ← (jField fields "claimed_by").bind jAsStrOpt
    let ca ← (jField fields "claimed_at").bind jAsNumOpt
    some { id := id, title := title, priority := priority, status := status0,
           claimed_by := cb, claimed_at := ca }
  | _ => none

/-- Parse one node entry. -/
def nodeOfJson : Json → Option NMNode
  | .obj fields => do
    let dev ← (jField fields "device_id").bind jAsStr
    let ls ← (jField fields "last_seen").bind jAsNum
    let bat ← (jField fields "battery").bind jAsNum
    let ct ← (jField fields "current_task").bind jAsStrOpt
    let caps ← (jField fields "capabilities").bind jAsStrList
    some { device_id := dev, last_seen := ls, battery := bat, current_task := ct,
           capabilities := caps }
  | _ => none

/-- Parse one completion record. -/
def completedOfJson : Json → Option NMCompleted
  | .obj fields => do
    let id ← (jField fields "id").bind jAsStr
    let title ← (jField fields "title").bind jAsStr
    let cby ← (jField fields "completed_by").bind jAsStr
    let cat ← (jField fields "completed_at").bind jAsNum
    let sol ← (jField fields "solution_path").bind jAsStr
    let priority ← (jField fields "priority").bind jAsNumOpt
    some { id := id, title := title, completed_by := cby, completed_at := cat,
           solution_path := sol, priority := priority }
  | _ => none

/-- Parse a list of JSON values element-wise. -/
def listOfJsonAux (parse : Json → Option α) : List Json → Option (List α)
  | [] => some []
  | x :: rest => do
    let a ← parse x
    let r ← listOfJsonAux parse rest
    some (a :: r)

/-- Parse a JSON array element-wise. -/
def listOfJson (parse : Json → Option α) : Json → Option (List α)
  | .arr xs => listOfJsonAux parse xs
  | _ => none

/-- Parse the whole `node_manager.py` ledger. -/
def ledgerOfJson : Json → Option NMLedger
  | .obj fields => do
    let queue ← (jField fields "queue").bind (listOfJson taskOfJson)
    let nodes ← (jField fields "nodes").bind (listOfJson nodeOfJson)
    let completed ← (jField fields "completed").bind (listOfJson completedOfJson)
    let lu ← (jField fields "last_updated").bind jAsNum
    some { queue := queue, nodes := nodes, completed := completed, last_updated := lu }
  | _ => none

/-- `NodeManager.save_ledger`: rewrite `last_updated` to the current time,
serialize, and atomically replace the live file. -/
def nmSaveLedger (now : Int) (l : NMLedger) : FileState Json :=
  .good (jOfLedger { l with last_updated := now })

/-- `NodeManager.load_ledger`: a parseable file is returned as is; when
the file is missing or `json.load` fails, a fresh empty ledger is returned
in memory only — nothing is written back.  (The Python code performs no
schema validation, so a parseable file that is not a ledger object is
outside this embedding's domain; the saves in this file always write
`jOfLedger` images.)  Returns the ledger with the file state, which this
function never changes. -/
def nmLoadLedger (now : Int) (fs : FileState Json) : NMLedger × FileState Json :=
  match fs with
  | .good j =>
    match ledgerOfJson j with
    | some l => (l, fs)
    | none => (freshNMLedger now, fs)
  | _ => (freshNMLedger now, fs)

/-- One git command or delay observable in `SyncManager._sync_git`. -/
inductive GitEvent where
  | pullCmd : GitEvent
  | stageCmd : GitEvent
  | commitCmd : GitEvent
  | pushCmd : Nat → GitEvent
  | sleepSec : Nat → GitEvent
  deriving Repr, DecidableEq

/-- The `for attempt in range(3)` push loop of `SyncManager._sync_git`:
attempt a push; on failure before the last attempt, sleep `2 ** attempt`
seconds, re-pull and retry; a failure on the last attempt re-raises (the
enclosing handler turns it into `False`).  `pushOK k` says whether the
push of attempt `k` succeeds; the fuel argument is the number of remaining
loop iterations, 3 at the top call. -/
def gitPushLoop (pushOK : Nat → Bool) : Nat → Nat → Bool × List GitEvent
  | _, 0 => (false, [])
  | attempt, fuel + 1 =>
    if pushOK attempt then (true, [.pushCmd attempt])
    else if attempt < 2 then
      let r := gitPushLoop pushOK (attempt + 1) fuel
      (r.1, .pushCmd attempt :: .sleepSec (2 ^ attempt) :: .pullCmd :: r.2)
    else (false, [.pushCmd attempt])

/-- `SyncManager._sync_git`: initial `git pull` (with `check=True`, so a
pull failure lands in the exception handler and yields `False` after the
single pull), then stage and commit, then the push loop.  The local ledger
file is never written or reverted by this function, so its state is passed
through unchanged.  Returns success, the command trace, and the file
state. -/
def smSyncGit (pullOK : Bool) (pushOK : Nat → Bool) (fs : FileState SMLedger) :
    Bool × List GitEvent × FileState SMLedger :=
  if pullOK then
    let r := gitPushLoop pushOK 0 3
    (r.1, .pullCmd :: .stageCmd :: .commitCmd :: r.2, fs)
  else (false, [.pullCmd], fs)

/-- Step of `HeartbeatManager.stop` observable from outside. -/
inductive HBEvent where
  | setRunningFalse : HBEvent
  | ledgerWrite : String → HBEvent
  | syncAttempt : HBEvent
  | joinHeartbeat : HBEvent
  | joinCleanup : HBEvent
  deriving Repr, DecidableEq

/-- `HeartbeatManager.stop`: a no-op when not running; otherwise clear the
running flag, send a final heartbeat with status `"offline"` and no
current task (`update_status("offline")` → `_send_heartbeat` →
`update_node_status` writes the ledger, then `sync_with_network`), and
join both loops with a bounded timeout before returning.  Returns the
resulting ledger and the ordered event trace. -/
def hbStop (running : Bool) (dev : String) (now battery : Int) (l : SMLedger) :
    SMLedger × List HBEvent :=
  if running then
    (smUpdateNodeStatus dev "offline" none now battery l,
     [.setRunningFalse, .ledgerWrite "offline", .syncAttempt, .joinHeartbeat, .joinCleanup])
  else (l, [])

/-- Schema invariant of one `node_manager.py` queue entry: a recognized
status, and claim fields set exactly when the task is claimed. -/
def TaskInv (t : NMTask) : Prop :=
  (t.status = "available" ∨ t.status = "claimed" ∨ t.status = "completed") ∧
  (t.claimed_by ≠ none ↔ t.status = "claimed") ∧
  (t.claimed_at ≠ none ↔ t.status = "claimed")

/-- Schema invariant of a `node_manager.py` ledger: every queue entry
satisfies `TaskInv`.  (Entries of the `completed` list carry
`completed_by`/`completed_at` instead of a status field and are outside
the queue.) -/
def LedgerInv (l : NMLedger) : Prop := ∀ t ∈ l.queue, TaskInv t

instance (t : NMTask) : Decidable (TaskInv t) := by
  unfold TaskInv; infer_instance

instance (l : NMLedger) : Decidable (LedgerInv l) := by
  unfold LedgerInv; exact List.decidableBAll _ _

/-- Fixture: available task `t1` of priority 5 (spec scenario 1). -/
def wTask1 : NMTask :=
  { id := "t1", title := "first", priority := some 5, status := "available",
    claimed_by := none, claimed_at := none }

/-- Fixture: available task `t2` of priority 9 (spec scenario 1). -/
def wTask2 : NMTask :=
  { id := "t2", title := "second", priority := some 9, status := "available",
    claimed_by := none, claimed_at := none }

/-- Fixture: ledger holding `t1` then `t2` (spec scenario 1). -/
def wLedger12 : NMLedger :=
  { queue := [wTask1, wTask2], nodes := [], completed := [], last_updated := 0 }

/-- Fixture: task `t1` claimed by node `node-A` at time 100. -/
def cTaskClaimedByA : NMTask :=
  { id := "t1", title := "first", priority := some 5, status := "claimed",
    claimed_by := some "node-A", claimed_at := some 100 }

/-- Fixture: ledger whose only queue entry is claimed by `node-A`. -/
def cLedgerClaimedByA : NMLedger :=
  { queue := [cTaskClaimedByA], nodes := [], completed := [], last_updated := 0 }

/-- Fixture: completion record for id `t1`. -/
def cCompletedT1 : NMCompleted :=
  { id := "t1", title := "first", completed_by := "node-A", completed_at := 50,
    solution_path := "solutions/t1/", priority := some 5 }

/-- Fixture: ledger with id `t1` present only in the `completed` list. -/
def cLedgerDoneT1 : NMLedger :=
  { queue := [], nodes := [], completed := [cCompletedT1], last_updated := 0 }

/-- Fixture: available task `tA`, added before `tB`, same priority. -/
def cTaskEarly : NMTask :=
  { id := "tA", title := "early", priority := some 5, status := "available",
    claimed_by := none, claimed_at := none }

/-- Fixture: task `tB` claimed at time 0 by the absent node `node-N`. -/
def cTaskStale : NMTask :=
  { id := "tB", title := "stale", priority := some 5, status := "claimed",
    claimed_by := some "node-N", claimed_at := some 0 }

/-- Fixture: ledger with `tA` available ahead of the stale claim `tB` and
an empty node registry. -/
def cLedgerStale : NMLedger :=
  { queue := [cTaskEarly, cTaskStale], nodes := [], completed := [], last_updated := 0 }

/-- Fixture: `sync_manager.py` node whose `current_task` is the empty
string — non-null, but falsy for the Python truthiness test. -/
def cNodeEmptyTask : SMNode :=
  { completed_tasks := 0, last_seen := some 0, battery_level := 50,
    status := "working", current_task := some "" }

/-- Fixture: `sync_manager.py` ledger where node `dev1` records the empty
string as its current task while `u1` is pending. -/
def cSMLedgerEmptyTask : SMLedger :=
  { nodes := [("dev1", cNodeEmptyTask)], pending := ["u1"], active := [],
    completed := [], last_updated := 0 }

/-- Fixture: `sync_manager.py` node working on `u7`. -/
def cNodeBusy : SMNode :=
  { completed_tasks := 2, last_seen := some 0, battery_level := 50,
    status := "working", current_task := some "u7" }

/-- Fixture: `sync_manager.py` ledger where node `dev1` is working on the
active task `u7` while `u1` is pending. -/
def cSMLedgerBusy : SMLedger :=
  { nodes := [("dev1", cNodeBusy)], pending := ["u1"], active := ["u7"],
    completed := [], last_updated := 0 }

/-- Fixture: `sync_manager.py` node last seen at time 0 working on `u7`. -/
def cNodeStale : SMNode :=
  { completed_tasks := 0, last_seen := some 0, battery_level := 50,
    status := "working", current_task := some "u7" }

/-- Fixture: `sync_manager.py` ledger whose single node `gone` is stale at
time 2000 and holds the active task `u7`. -/
def cSMLedgerStaleNode : SMLedger :=
  { nodes := [("gone", cNodeStale)], pending := ["u1"], active := ["u7"],
    completed := [], last_updated := 0 }


/-! ## Helper lemmas -/

theorem bestAvailableIdx_none_of (q : List NMTask)
    (h : ∀ t ∈ q, ¬ t.status = "available") : bestAvailableIdx q = none := by
  induction q with
  | nil => rfl
  | cons a q ih =>
    have ha : ¬ a.status = "available" := h a (List.mem_cons_self a q)
    have hq : bestAvailableIdx q = none :=
      ih (fun t ht => h t (List.mem_cons_of_mem a ht))
    simp [bestAvailableIdx, hq, ha]

theorem of_bestAvailableIdx_none (q : List NMTask) (h : bestAvailableIdx q = none) :
    ∀ t ∈ q, ¬ t.status = "available" := by
  induction q with
  | nil => intro t ht; cases ht
  | cons a q ih =>
    intro t ht
    cases hq : bestAvailableIdx q with
    | none =>
      simp only [bestAvailableIdx, hq] at h
      by_cases ha : a.status = "available"
      · rw [if_pos ha] at h; exact Option.noConfusion h
      · rcases List.mem_cons.mp ht with rfl | ht2
        · exact ha
        · exact ih hq t ht2
    | some jb =>
      obtain ⟨j, b⟩ := jb
      simp only [bestAvailableIdx, hq] at h
      by_cases ha : a.status = "available"
      · rw [if_pos ha] at h
        split at h <;> exact Option.noConfusion h
      · rw [if_neg ha] at h; exact Option.noConfusion h

theorem bestAvailableIdx_spec (q : List NMTask) (i : Nat) (t : NMTask)
    (h : bestAvailableIdx q = some (i, t)) :
    q.get? i = some t ∧ t.status = "available" ∧
    (∀ j u, q.get? j = some u → u.status = "available" → taskKey u ≤ taskKey t) ∧
    (∀ j u, j < i → q.get? j = some u → u.status = "available" →
      taskKey u < taskKey t) := by
  induction q generalizing i t with
  | nil => exact absurd h (by simp [bestAvailableIdx])
  | cons a q ih =>
    cases hq : bestAvailableIdx q with
    | none =>
      simp only [bestAvailableIdx, hq] at h
      by_cases ha : a.status = "available"
      · rw [if_pos ha] at h
        simp only [Option.some.injEq, Prod.mk.injEq] at h
        obtain ⟨rfl, rfl⟩ := h.symm.imp Eq.symm Eq.symm
        refine ⟨rfl, ha, ?_, ?_⟩
        · intro j u hj hu
          cases j with
          | zero =>
            simp only [List.get?] at hj
            cases hj; exact le_refl _
          | succ k =>
            simp only [List.get?] at hj
            exact absurd hu (of_bestAvailableIdx_none q hq u (List.get?_mem hj))
        · intro j u hlt; exact absurd hlt (Nat.not_lt_zero j)
      · rw [if_neg ha] at h; exact Option.noConfusion h
    | some jb =>
      obtain ⟨j, b⟩ := jb
      simp only [bestAvailableIdx, hq] at h
      obtain ⟨ihget, ihavail, ihmax, ihearliest⟩ := ih j b hq
      by_cases ha : a.status = "available"
      · rw [if_pos ha] at h
        by_cases hk : taskKey b > taskKey a
        · rw [if_pos hk] at h
          simp only [Option.some.injEq, Prod.mk.injEq] at h
          obtain ⟨rfl, rfl⟩ := h.symm.imp Eq.symm Eq.symm
          refine ⟨ihget, ihavail, ?_, ?_⟩
          · intro j0 u hj hu
            cases j0 with
            | zero =>
              simp only [List.get?] at hj
              cases hj; exact le_of_lt hk
            | succ k =>
              simp only [List.get?] at hj
              exact ihmax k u hj hu
          · intro j0 u hlt hj hu
            cases j0 with
            | zero =>
              simp only [List.get?] at hj
              cases hj; exact hk
            | succ k =>
              simp only [List.get?] at hj
              exact ihearliest k u (Nat.lt_of_succ_lt_succ hlt) hj hu
        · rw [if_neg hk] at h
          simp only [Option.some.injEq, Prod.mk.injEq] at h
          obtain ⟨rfl, rfl⟩ := h.symm.imp Eq.symm Eq.symm
          refine ⟨rfl, ha, ?_, ?_⟩
          · intro j0 u hj hu
            cases j0 with
            | zero =>
              simp only [List.get?] at hj
              cases hj; exact le_refl _
            | succ k =>
              simp only [List.get?] at hj
              exact le_trans (ihmax k u hj hu) (not_lt.mp hk)
          · intro j0 u hlt; exact absurd hlt (Nat.not_lt_zero j0)
      · rw [if_neg ha] at h
        simp only [Option.some.injEq, Prod.mk.injEq] at h
        obtain ⟨rfl, rfl⟩ := h.symm.imp Eq.symm Eq.symm
        refine ⟨ihget, ihavail, ?_, ?_⟩
        · intro j0 u hj hu
          cases j0 with
          | zero =>
            simp only [List.get?] at hj
            cases hj; exact absurd hu ha
          | succ k =>
            simp only [List.get?] at hj
            exact ihmax k u hj hu
        · intro j0 u hlt hj hu
          cases j0 with
          | zero =>
            simp only [List.get?] at hj
            cases hj; exact absurd hu ha
          | succ k =>
            simp only [List.get?] at hj
            exact ihearliest k u (Nat.lt_of_succ_lt_succ hlt) hj hu

theorem taskOfJson_jOfTask (t : NMTask) : taskOfJson (jOfTask t) = some t := by
  obtain ⟨id, title, priority, status0, cb, ca⟩ := t
  cases priority <;> cases cb <;> cases ca <;> rfl

theorem strListAux_map (xs : List String) :
    strListAux (xs.map Json.str) = some xs := by
  induction xs with
  | nil => rfl
  | cons x xs ih => simp [strListAux, jAsStr, ih]

theorem nodeOfJson_jOfNode (n : NMNode) : nodeOfJson (jOfNode n) = some n := by
  obtain ⟨dev, ls, bat, ct, caps⟩ := n
  cases ct <;>
    simp [nodeOfJson, jOfNode, jField, jAsStr, jAsNum, jAsStrOpt, jOfStrOpt,
      jAsStrList, strListAux_map]

theorem completedOfJson_jOfCompleted (c : NMCompleted) :
    completedOfJson (jOfCompleted c) = some c := by
  obtain ⟨id, title, cby, cat, sol, priority⟩ := c
  cases priority <;> rfl

theorem listOfJsonAux_map {α : Type} (parse : Json → Option α) (enc : α → Json)
    (h : ∀ a, parse (enc a) = some a) (xs : List α) :
    listOfJsonAux parse (xs.map enc) = some xs := by
  induction xs with
  | nil => rfl
  | cons x xs ih => simp [listOfJsonAux, h, ih]

theorem ledgerOfJson_jOfLedger (l : NMLedger) : ledgerOfJson (jOfLedger l) = some l := by
  obtain ⟨queue, nodes, completed, lu⟩ := l
  simp [ledgerOfJson, jOfLedger, jField, listOfJson, jAsNum,
    listOfJsonAux_map taskOfJson jOfTask taskOfJson_jOfTask,
    listOfJsonAux_map nodeOfJson jOfNode nodeOfJson_jOfNode,
    listOfJsonAux_map completedOfJson jOfCompleted completedOfJson_jOfCompleted]

theorem smLookup_map_if (dev : String) (f : SMNode → SMNode)
    (nodes : List (String × SMNode)) :
    smLookup dev (nodes.map (fun p => if p.1 = dev then (p.1, f p.2) else p)) =
      (smLookup dev nodes).map f := by
  induction nodes with
  | nil => rfl
  | cons p rest ih =>
    obtain ⟨k, v⟩ := p
    simp only [List.map_cons]
    by_cases h : k = dev
    · rw [if_pos (show (k, v).1 = dev from h)]
      simp [smLookup, h]
    · rw [if_neg (show ¬ (k, v).1 = dev from h)]
      simp [smLookup, h, ih]

theorem smLookup_append (dev : String) (xs ys : List (String × SMNode))
    (h : smLookup dev xs = none) : smLookup dev (xs ++ ys) = smLookup dev ys := by
  induction xs with
  | nil => rfl
  | cons p rest ih =>
    obtain ⟨k, v⟩ := p
    by_cases hk : k = dev
    · simp [smLookup, hk] at h
    · simp only [List.cons_append, smLookup, if_neg hk] at h ⊢
      exact ih h

theorem smLookup_upsert (dev status0 : String) (task : Option String)
    (now battery : Int) (nodes : List (String × SMNode)) :
    smLookup dev (smUpsertNode dev status0 task now battery nodes) =
      some { completed_tasks :=
               ((smLookup dev nodes).map (fun n => n.completed_tasks)).getD 0,
             last_seen := some now, battery_level := battery, status := status0,
             current_task := task } := by
  cases h : smLookup dev nodes with
  | none =>
    simp only [smUpsertNode, h]
    rw [smLookup_append dev nodes _ h]
    simp [smLookup]
  | some n =>
    simp only [smUpsertNode, h]
    have hmap := smLookup_map_if dev
      (fun m => { completed_tasks := m.completed_tasks, last_seen := some now, battery_level := battery, status := status0, current_task := task }) nodes
    rw [hmap, h]
    rfl

theorem taskInv_reclaimTask (timeout now : Int) (nodes : List NMNode) (t : NMTask)
    (h : TaskInv t) : TaskInv (reclaimTask timeout now nodes t) := by
  unfold reclaimTask
  split
  · split
    · split
      · exact ⟨Or.inl rfl, by simp [releasedCopy], by simp [releasedCopy]⟩
      · exact h
    · exact h
  · exact h


/-! ## Claim theorems -/

/-- C2: `claim_next` selects, among tasks with status `"available"`, the
one with the highest priority, breaking ties by earliest queue (insertion)
order; it sets that task's status to `"claimed"`, `claimed_by` to the
calling node and `claimed_at` to the current time and saves; it returns
`none` and leaves the ledger unchanged when no available task exists or
when the battery capacity check fails. -/
theorem nm_claim_next_task_spec (minBattery battery now : Int) (deviceId : String)
    (l : NMLedger) :
    (battery < minBattery →
      nmClaimNextTask minBattery battery now deviceId l = (none, l)) ∧
    ((∀ t ∈ l.queue, ¬ t.status = "available") →
      nmClaimNextTask minBattery battery now deviceId l = (none, l)) ∧
    (∀ i t, bestAvailableIdx l.queue = some (i, t) → ¬ battery < minBattery →
      l.queue.get? i = some t ∧ t.status = "available" ∧
      (∀ j u, l.queue.get? j = some u → u.status = "available" →
        taskKey u ≤ taskKey t) ∧
      (∀ j u, j < i → l.queue.get? j = some u → u.status = "available" →
        taskKey u < taskKey t) ∧
      nmClaimNextTask minBattery battery now deviceId l =
        (some (claimedCopy t deviceId now),
         { l with queue := l.queue.set i (claimedCopy t deviceId now),
                  last_updated := now })) := by
  refine ⟨?_, ?_, ?_⟩
  · intro h
    simp [nmClaimNextTask, h]
  · intro h
    have hn := bestAvailableIdx_none_of l.queue h
    by_cases hb : battery < minBattery
    · simp [nmClaimNextTask, hb]
    · simp [nmClaimNextTask, hb, hn]
  · intro i t hbest hb
    obtain ⟨h1, h2, h3, h4⟩ := bestAvailableIdx_spec l.queue i t hbest
    refine ⟨h1, h2, h3, h4, ?_⟩
    simp [nmClaimNextTask, hb, hbest]

/-- C2 witness: spec scenario 1 — on a ledger holding `t1` (priority 5)
then `t2` (priority 9), `claim_next` claims `t2`. -/
theorem nm_claim_next_task_spec_witness :
    nmClaimNextTask 20 100 5 "node-a" wLedger12 =
      (some (claimedCopy wTask2 "node-a" 5),
       { wLedger12 with queue := wLedger12.queue.set 1 (claimedCopy wTask2 "node-a" 5),
                        last_updated := 5 }) :=
  ((nm_claim_next_task_spec 20 100 5 "node-a" wLedger12).2.2 1 wTask2 (by decide)
    (by decide)).2.2.2.2

/-- C5: schema invariant — every queue entry's status is one of
`"available"`/`"claimed"`/`"completed"` and `claimed_by`/`claimed_at` are
non-null exactly when the status is `"claimed"` — and every operation
(add, claim, complete, reclaim sweep) preserves it. -/
theorem nm_ledger_invariant_preserved (l : NMLedger) (hInv : LedgerInv l)
    (minBattery battery now timeout : Int) (deviceId solutionPath taskId : String)
    (task : NMTask) :
    LedgerInv (nmAddTask task now l).1 ∧
    LedgerInv (nmClaimNextTask minBattery battery now deviceId l).2 ∧
    LedgerInv (nmCompleteTask deviceId now solutionPath taskId l).1 ∧
    LedgerInv (nmCleanupAbandoned timeout now l) := by
  refine ⟨?_, ?_, ?_, ?_⟩
  · unfold nmAddTask
    split
    · exact hInv
    · intro u hu
      rcases List.mem_append.mp hu with h | h
      · exact hInv u h
      · rcases List.mem_singleton.mp h with rfl
        exact ⟨Or.inl rfl, by simp [availableCopy], by simp [availableCopy]⟩
  · unfold nmClaimNextTask
    split
    · exact hInv
    · cases hbest : bestAvailableIdx l.queue with
      | none => simp only [hbest]; exact hInv
      | some p =>
        obtain ⟨i, t⟩ := p
        simp only [hbest]
        intro u hu
        rcases List.mem_or_eq_of_mem_set hu with h | rfl
        · exact hInv u h
        · exact ⟨Or.inr (Or.inl rfl), by simp [claimedCopy], by simp [claimedCopy]⟩
  · unfold nmCompleteTask
    cases hf : l.queue.find? (fun t2 => t2.id == taskId) with
    | none => exact hInv
    | some t2 =>
      intro u hu
      exact hInv u (List.mem_of_mem_eraseP hu)
  · intro u hu
    rcases List.mem_map.mp hu with ⟨v, hv, rfl⟩
    exact taskInv_reclaimTask timeout now l.nodes v (hInv v hv)

/-- C5 witness: the invariant holds of the concrete ledger `cLedgerStale`
and is preserved by each operation on it. -/
theorem nm_ledger_invariant_preserved_witness :
    LedgerInv (nmAddTask wTask1 3 cLedgerStale).1 ∧
    LedgerInv (nmClaimNextTask 20 100 5 "node-a" cLedgerStale).2 ∧
    LedgerInv (nmCompleteTask "node-a" 5 "solutions/" "tA" cLedgerStale).1 ∧
    LedgerInv (nmCleanupAbandoned 600 700 cLedgerStale) :=
  nm_ledger_invariant_preserved cLedgerStale (by decide) 20 100 5 600 "node-a"
    "solutions/" "tA" wTask1

/-- C1 counterexample: the claim says `complete` invoked by node B while
`claimed_by == A` is a no-op leaving the ledger unchanged, but
`NodeManager.complete_task` performs no ownership check: node `node-B`
completes the task claimed by `node-A`, the queue entry disappears, and a
completion record crediting `node-B` is appended. -/
theorem nm_complete_ownership_counterexample :
    cTaskClaimedByA.claimed_by = some "node-A" ∧
    ¬ "node-B" = "node-A" ∧
    ¬ (nmCompleteTask "node-B" 200 "solutions/t1/" "t1" cLedgerClaimedByA).1 =
        cLedgerClaimedByA ∧
    (nmCompleteTask "node-B" 200 "solutions/t1/" "t1" cLedgerClaimedByA).1.queue = [] ∧
    (nmCompleteTask "node-B" 200 "solutions/t1/" "t1" cLedgerClaimedByA).1.completed.map
      (fun c => c.completed_by) = ["node-B"] := by decide

/-- C1 amended: `complete_task` checks only that a task with the given id
is in the queue, never `claimed_by`: when no queue entry matches it is a
no-op, and when one matches it is moved to the completed list crediting
the calling node, whoever holds the claim.  `SyncManager.complete_task`
likewise appends the url to `completed` and increments the calling node's
`completed_tasks` counter unconditionally. -/
theorem complete_task_no_ownership (l : NMLedger) (deviceId solutionPath taskId : String)
    (now battery : Int) (sl : SMLedger) (dev url : String) :
    ((∀ t2 ∈ l.queue, ¬ t2.id = taskId) →
      nmCompleteTask deviceId now solutionPath taskId l = (l, false)) ∧
    (∀ t2, l.queue.find? (fun u => u.id == taskId) = some t2 →
      nmCompleteTask deviceId now solutionPath taskId l =
        ({ queue := l.queue.eraseP (fun u => u.id == taskId), nodes := l.nodes,
           completed := l.completed ++
             [{ id := taskId, title := t2.title, completed_by := deviceId,
                completed_at := now, solution_path := solutionPath,
                priority := t2.priority }],
           last_updated := now }, true)) ∧
    ((smCompleteTask dev url now battery sl).completed = sl.completed ++ [url]) ∧
    ((smLookup dev (smCompleteTask dev url now battery sl).nodes).map
        (fun n => n.completed_tasks) =
      some (((smLookup dev sl.nodes).map (fun n => n.completed_tasks)).getD 0 + 1)) := by
  refine ⟨?_, ?_, ?_, ?_⟩
  · intro h
    have hf : l.queue.find? (fun u => u.id == taskId) = none :=
      List.find?_eq_none.mpr (fun x hx => by simpa using h x hx)
    simp [nmCompleteTask, hf]
  · intro t2 h
    simp [nmCompleteTask, h]
  · rfl
  · simp only [smCompleteTask, smUpdateNodeStatus, smIncCompleted]
    have hmap := smLookup_map_if dev
      (fun m => { m with completed_tasks := m.completed_tasks + 1 })
      (smUpsertNode dev "idle" none now battery sl.nodes)
    rw [hmap, smLookup_upsert]
    rfl

/-- C1 amended witness: a missing id is a no-op, and a non-owner completes
an active url with the counter incremented. -/
theorem complete_task_no_ownership_witness :
    nmCompleteTask "node-B" 200 "solutions/" "zz" cLedgerClaimedByA =
      (cLedgerClaimedByA, false) ∧
    (smCompleteTask "dev1" "u7" 9 80 cSMLedgerBusy).completed =
      cSMLedgerBusy.completed ++ ["u7"] ∧
    (smLookup "dev1" (smCompleteTask "dev1" "u7" 9 80 cSMLedgerBusy).nodes).map
        (fun n => n.completed_tasks) = some 3 :=
  ⟨(complete_task_no_ownership cLedgerClaimedByA "node-B" "solutions/" "zz" 200 80
      cSMLedgerBusy "dev1" "u7").1 (by decide),
   (complete_task_no_ownership cLedgerClaimedByA "node-B" "solutions/" "zz" 200 80
      cSMLedgerBusy "dev1" "u7").2.2.1,
   (complete_task_no_ownership cLedgerClaimedByA "node-B" "solutions/" "zz" 200 80
      cSMLedgerBusy "dev1" "u7").2.2.2⟩

/-- C3 counterexample: the claim says `add` inserts only when the id is
absent from the whole ledger including completed tasks, but
`NodeManager.add_task` checks only the queue: with id `t1` present in the
`completed` list, adding a task with id `t1` still inserts it. -/
theorem add_task_dedup_counterexample :
    (cLedgerDoneT1.completed.map (fun c => c.id)) = ["t1"] ∧
    (nmAddTask wTask1 60 cLedgerDoneT1).2 = true ∧
    (nmAddTask wTask1 60 cLedgerDoneT1).1.queue.map (fun t => t.id) = ["t1"] := by
  decide

/-- C3 amended: `NodeManager.add_task` deduplicates by id against the
queue only (available and claimed entries); an id present only in the
completed list does not block insertion.  Applying `add` twice in direct
sequence still leaves exactly one queue entry with the task's id.
`SyncManager.add_tasks_to_queue` deduplicates against all three url
lists, and a repeated singleton add is a no-op. -/
theorem add_task_dedup_spec (l : NMLedger) (task : NMTask) (n1 n2 : Int)
    (sl : SMLedger) (url : String) :
    (l.queue.any (fun t => t.id == task.id) = true → nmAddTask task n1 l = (l, false)) ∧
    (nmAddTask task n2 (nmAddTask task n1 l).1 = ((nmAddTask task n1 l).1, false)) ∧
    (l.queue.countP (fun t => t.id == task.id) = 0 →
      (nmAddTask task n2 (nmAddTask task n1 l).1).1.queue.countP
        (fun t => t.id == task.id) = 1) ∧
    (url ∈ sl.pending ∨ url ∈ sl.active ∨ url ∈ sl.completed →
      smAddTasks [url] sl = sl) ∧
    (smAddTasks [url] (smAddTasks [url] sl) = smAddTasks [url] sl) := by
  have hself : (availableCopy task).id == task.id := by simp [availableCopy]
  refine ⟨?_, ?_, ?_, ?_, ?_⟩
  · intro h
    simp [nmAddTask, h]
  · cases h : l.queue.any (fun t => t.id == task.id) with
    | true => simp [nmAddTask, h]
    | false =>
      have h2 : ((l.queue ++ [availableCopy task]).any (fun t => t.id == task.id))
          = true := by
        simp [List.any_append, hself]
      simp [nmAddTask, h, h2]
  · intro h0
    have h : l.queue.any (fun t => t.id == task.id) = false := by
      rcases List.countP_eq_zero.mp h0 with hall
      cases hh : l.queue.any (fun t => t.id == task.id) with
      | false => rfl
      | true =>
        rcases List.any_eq_true.mp hh with ⟨x, hx, hpx⟩
        exact absurd hpx (hall x hx)
    have h2 : ((l.queue ++ [availableCopy task]).any (fun t => t.id == task.id))
        = true := by
      simp [List.any_append, hself]
    simp [nmAddTask, h, h2, List.countP_append, h0, List.countP_cons, hself]
  · intro h
    have hc : (sl.pending.contains url || sl.active.contains url ||
        sl.completed.contains url) = true := by
      rcases h with h | h | h <;> simp [h]
    simp only [smAddTasks, List.foldl, hc, if_pos]
  · by_cases hc : (sl.pending.contains url || sl.active.contains url ||
        sl.completed.contains url) = true
    · simp only [smAddTasks, List.foldl, hc, if_pos]
    · have hc2 : ((sl.pending ++ [url]).contains url || sl.active.contains url ||
          sl.completed.contains url) = true := by
        simp
      simp only [smAddTasks, List.foldl, hc, if_neg, Bool.not_eq_true, hc2, if_pos]

/-- C3 amended witness: adding an id already queued is a no-op; two
sequential adds of a fresh id leave exactly one queue entry; adding an
active url on the `sync_manager.py` side is a no-op. -/
theorem add_task_dedup_spec_witness :
    nmAddTask wTask1 7 wLedger12 = (wLedger12, false) ∧
    (nmAddTask wTask1 8 (nmAddTask wTask1 7 cLedgerDoneT1).1).1.queue.countP
      (fun t => t.id == wTask1.id) = 1 ∧
    smAddTasks ["u7"] cSMLedgerBusy = cSMLedgerBusy :=
  ⟨(add_task_dedup_spec wLedger12 wTask1 7 8 cSMLedgerBusy "u7").1 (by decide),
   (add_task_dedup_spec cLedgerDoneT1 wTask1 7 8 cSMLedgerBusy "u7").2.2.1 (by decide),
   (add_task_dedup_spec cLedgerDoneT1 wTask1 7 8 cSMLedgerBusy "u7").2.2.2.1
     (Or.inr (Or.inl (by decide)))⟩

/-- C4 counterexample: the claim says a reclaimed task is placed at the
front of the available ordering so it is retried first, but
`NodeManager.cleanup_abandoned_tasks` resets it in place: with `tA`
(available, priority 5) ahead of the stale claim `tB` (priority 5, owner
absent, claimed 700 seconds ago with a 600-second timeout), the sweep
makes `tB` available but leaves it behind `tA`, and the next claim picks
`tA`, not `tB`. -/
theorem reclaim_front_counterexample :
    ((nmCleanupAbandoned 600 700 cLedgerStale).queue.map
      (fun t => (t.id, t.status)) = [("tA", "available"), ("tB", "available")]) ∧
    ((bestAvailableIdx (nmCleanupAbandoned 600 700 cLedgerStale).queue).map
      (fun p => p.2.id) = some "tA") := by decide

/-- C4 amended: the sweep resets a claimed task whose owner is absent or
whose claim has outlived the timeout to `"available"` with
`claimed_by`/`claimed_at` cleared, leaving it at its existing queue
position (the sweep is a positional map); a claimed task whose owner is
present and within the timeout, or an unclaimed task, is unchanged.  Only
`SyncManager.cleanup_stale_nodes` inserts a reclaimed url at the front of
`pending`, and its trigger is node staleness, not claim age. -/
theorem reclaim_sweep_spec (timeout now : Int) (l : NMLedger) (sl : SMLedger)
    (nid : String) (n : SMNode) (turl : String) :
    ((nmCleanupAbandoned timeout now l).queue.length = l.queue.length) ∧
    (∀ i, (nmCleanupAbandoned timeout now l).queue.get? i =
      (l.queue.get? i).map (reclaimTask timeout now l.nodes)) ∧
    (∀ u ct, u.status = "claimed" → u.claimed_at = some ct →
      ((l.nodes.find? (fun n2 => some n2.device_id == u.claimed_by)).isNone = true ∨
        now - ct > timeout) →
      reclaimTask timeout now l.nodes u = releasedCopy u) ∧
    (∀ u ct, u.status = "claimed" → u.claimed_at = some ct →
      (l.nodes.find? (fun n2 => some n2.device_id == u.claimed_by)).isNone = false →
      now - ct ≤ timeout → reclaimTask timeout now l.nodes u = u) ∧
    (∀ u, ¬ u.status = "claimed" → reclaimTask timeout now l.nodes u = u) ∧
    (sl.nodes = [(nid, n)] → smStale now n = true → n.current_task = some turl →
      ¬ turl = "" → sl.active.contains turl = true →
      (smCleanupStale now sl).1.pending = turl :: sl.pending) := by
  refine ⟨?_, ?_, ?_, ?_, ?_, ?_⟩
  · exact List.length_map l.queue (reclaimTask timeout now l.nodes)
  · intro i
    exact List.get?_map (reclaimTask timeout now l.nodes) l.queue i
  · intro u ct h1 h2 h3
    simp only [reclaimTask, h1, if_pos, h2]
    rw [if_pos]
    rcases h3 with h3 | h3
    · exact Or.inl h3
    · exact Or.inr h3
  · intro u ct h1 h2 h3 h4
    simp only [reclaimTask, h1, if_pos, h2]
    rw [if_neg]
    rintro (hc | hc)
    · rw [h3] at hc; exact Bool.noConfusion hc
    · exact absurd hc (not_lt.mpr h4)
  · intro u h1
    simp only [reclaimTask, if_neg h1]
  · intro hn hst hct hne hact
    have hne2 : (turl == "") = false := by
      simp [hne]
    simp [smCleanupStale, hn, hst, smReclaimNode, hct, hne2, hact]
    rw [if_pos ⟨hne, by simpa using hact⟩]

/-- C4 amended witness: spec scenario 2 — a task claimed at time 0 with a
600-second timeout, owner absent, is reset to available by the sweep at
time 700; and the `sync_manager.py` stale-node reclaim puts the url at the
front of pending. -/
theorem reclaim_sweep_spec_witness :
    reclaimTask 600 700 cLedgerStale.nodes cTaskStale = releasedCopy cTaskStale ∧
    (smCleanupStale 2000 cSMLedgerStaleNode).1.pending =
      "u7" :: cSMLedgerStaleNode.pending :=
  ⟨(reclaim_sweep_spec 600 700 cLedgerStale cSMLedgerStaleNode "gone" cNodeStale
      "u7").2.2.1 cTaskStale 0 (by decide) (by decide) (Or.inl (by decide)),
   (reclaim_sweep_spec 600 2000 cLedgerStale cSMLedgerStaleNode "gone" cNodeStale
      "u7").2.2.2.2.2 (by decide) (by decide) (by decide) (by decide) (by decide)⟩

/-- C6 counterexample: the claim says a failed load persists the fresh
ledger to the backing path, but `NodeManager.load_ledger` only returns the
fresh ledger in memory: on a missing file it leaves the file missing, so
the backing path does not hold the returned ledger. -/
theorem load_ledger_persist_counterexample :
    (nmLoadLedger 0 FileState.missing).1 = freshNMLedger 0 ∧
    (nmLoadLedger 0 FileState.missing).2 = FileState.missing ∧
    ¬ (nmLoadLedger 0 FileState.missing).2 =
        FileState.good (jOfLedger (nmLoadLedger 0 FileState.missing).1) := by
  refine ⟨rfl, rfl, ?_⟩
  intro h
  exact FileState.noConfusion h

/-- C6 amended: load is fail-soft in both modules — a missing or
malformed file yields a fresh empty ledger and never an error, and a
well-formed file is returned as stored; but only
`SyncManager._read_ledger` persists the fresh ledger to the backing path
(via `_initialize_ledger`), while `NodeManager.load_ledger` returns it
without writing the file. -/
theorem load_ledger_fail_soft (now : Int) (slg : SMLedger) (j : Json) :
    smReadLedger now FileState.missing =
      (freshSMLedger now, FileState.good (freshSMLedger now)) ∧
    smReadLedger now FileState.malformed =
      (freshSMLedger now, FileState.good (freshSMLedger now)) ∧
    smReadLedger now (FileState.good slg) = (slg, FileState.good slg) ∧
    nmLoadLedger now FileState.missing = (freshNMLedger now, FileState.missing) ∧
    nmLoadLedger now FileState.malformed = (freshNMLedger now, FileState.malformed) ∧
    (∀ l2, ledgerOfJson j = some l2 →
      nmLoadLedger now (FileState.good j) = (l2, FileState.good j)) := by
  refine ⟨rfl, rfl, rfl, rfl, rfl, ?_⟩
  intro l2 h
  simp [nmLoadLedger, h]

/-- C6 amended witness: loading the serialized fresh ledger returns it
as stored. -/
theorem load_ledger_fail_soft_witness :
    nmLoadLedger 3 (FileState.good (jOfLedger (freshNMLedger 7))) =
      (freshNMLedger 7, FileState.good (jOfLedger (freshNMLedger 7))) :=
  (load_ledger_fail_soft 3 (freshSMLedger 0) (jOfLedger (freshNMLedger 7))).2.2.2.2.2
    (freshNMLedger 7) (by rfl)

/-- C7: round-trip — saving a ledger and loading it back reproduces every
field except `last_updated`, which `save_ledger` rewrites to the save
time; the backing file is left holding exactly what was saved. -/
theorem save_load_roundtrip (l : NMLedger) (now later : Int) :
    (nmLoadLedger later (nmSaveLedger now l)).1.queue = l.queue ∧
    (nmLoadLedger later (nmSaveLedger now l)).1.nodes = l.nodes ∧
    (nmLoadLedger later (nmSaveLedger now l)).1.completed = l.completed ∧
    (nmLoadLedger later (nmSaveLedger now l)).1.last_updated = now ∧
    (nmLoadLedger later (nmSaveLedger now l)).2 = nmSaveLedger now l := by
  have h : ledgerOfJson (jOfLedger { l with last_updated := now }) =
      some { l with last_updated := now } := ledgerOfJson_jOfLedger _
  simp [nmLoadLedger, nmSaveLedger, h]

/-- C8: the git sync stages, commits, then pushes with up to three
attempts, sleeping 2^attempt seconds and re-pulling between attempts;
success is exactly "the pull worked and some push attempt worked";
exhausting retries (or a failed initial pull) is reported as `false`
without ever touching the local ledger file, and nothing escapes the
function. -/
theorem sm_sync_git_spec (pullOK : Bool) (pushOK : Nat → Bool)
    (fs : FileState SMLedger) :
    ((smSyncGit pullOK pushOK fs).2.2 = fs) ∧
    ((smSyncGit pullOK pushOK fs).1 = true ↔
      pullOK = true ∧ (pushOK 0 = true ∨ pushOK 1 = true ∨ pushOK 2 = true)) ∧
    (pullOK = false → (smSyncGit pullOK pushOK fs).2.1 = [.pullCmd]) ∧
    (pullOK = true → pushOK 0 = true →
      (smSyncGit pullOK pushOK fs).2.1 =
        [.pullCmd, .stageCmd, .commitCmd, .pushCmd 0]) ∧
    (pullOK = true → pushOK 0 = false → pushOK 1 = true →
      (smSyncGit pullOK pushOK fs).2.1 =
        [.pullCmd, .stageCmd, .commitCmd, .pushCmd 0, .sleepSec 1, .pullCmd,
         .pushCmd 1]) ∧
    (pullOK = true → pushOK 0 = false → pushOK 1 = false →
      (smSyncGit pullOK pushOK fs).2.1 =
        [.pullCmd, .stageCmd, .commitCmd, .pushCmd 0, .sleepSec 1, .pullCmd,
         .pushCmd 1, .sleepSec 2, .pullCmd, .pushCmd 2] ∧
      (smSyncGit pullOK pushOK fs).1 = pushOK 2) := by
  cases pullOK with
  | false => simp [smSyncGit]
  | true =>
    cases h0 : pushOK 0 <;> cases h1 : pushOK 1 <;> cases h2 : pushOK 2 <;>
      simp [smSyncGit, gitPushLoop, h0, h1, h2]

/-- C8 witness: with a working pull and every push failing, the trace
shows three push attempts separated by 1- and 2-second sleeps and
re-pulls, the result is failure, and the ledger file is untouched. -/
theorem sm_sync_git_spec_witness :
    (smSyncGit true (fun _ => false) (FileState.missing : FileState SMLedger)).2.1 =
      [.pullCmd, .stageCmd, .commitCmd, .pushCmd 0, .sleepSec 1, .pullCmd,
       .pushCmd 1, .sleepSec 2, .pullCmd, .pushCmd 2] ∧
    (smSyncGit true (fun _ => false) (FileState.missing : FileState SMLedger)).1 =
      false ∧
    (smSyncGit true (fun _ => false) (FileState.missing : FileState SMLedger)).2.2 =
      FileState.missing :=
  ⟨((sm_sync_git_spec true (fun _ => false) FileState.missing).2.2.2.2.2 rfl rfl rfl).1,
   ((sm_sync_git_spec true (fun _ => false) FileState.missing).2.2.2.2.2 rfl rfl rfl).2,
   (sm_sync_git_spec true (fun _ => false) FileState.missing).1⟩

/-- C9: `stop` on a running heartbeat system writes this node's ledger
entry with status `"offline"` and no current task and attempts a sync
before joining the heartbeat and cleanup loops and returning; a stop when
not running does nothing. -/
theorem hb_stop_final_offline (dev : String) (now battery : Int) (l : SMLedger) :
    (hbStop true dev now battery l).2 =
      [.setRunningFalse, .ledgerWrite "offline", .syncAttempt, .joinHeartbeat,
       .joinCleanup] ∧
    ((hbStop true dev now battery l).2.indexOf (.ledgerWrite "offline") <
      (hbStop true dev now battery l).2.indexOf .joinHeartbeat ∧
     (hbStop true dev now battery l).2.indexOf (.ledgerWrite "offline") <
      (hbStop true dev now battery l).2.indexOf .joinCleanup ∧
     (hbStop true dev now battery l).2.indexOf .syncAttempt <
      (hbStop true dev now battery l).2.indexOf .joinHeartbeat) ∧
    (smLookup dev (hbStop true dev now battery l).1.nodes).map (fun n => n.status) =
      some "offline" ∧
    (smLookup dev (hbStop true dev now battery l).1.nodes).bind
      (fun n => n.current_task) = none ∧
    hbStop false dev now battery l = (l, []) := by
  have htr : (hbStop true dev now battery l).2 =
      [.setRunningFalse, .ledgerWrite "offline", .syncAttempt, .joinHeartbeat,
       .joinCleanup] := rfl
  refine ⟨rfl, ?_, ?_, ?_, rfl⟩
  · rw [htr]
    exact ⟨by decide, by decide, by decide⟩
  · simp [hbStop, smUpdateNodeStatus, smLookup_upsert]
  · simp [hbStop, smUpdateNodeStatus, smLookup_upsert]

/-- C10 counterexample: the claim says a non-null `current_task` makes
`claim_next` return it without any write, but the check is Python
truthiness: with `current_task` recording the empty string (non-null), the
code falls through, claims pending `u1`, and writes the ledger. -/
theorem sm_claim_busy_counterexample :
    ((smLookup "dev1" cSMLedgerEmptyTask.nodes).bind (fun n => n.current_task) =
      some "") ∧
    (smClaimNextTask "dev1" 5 90 cSMLedgerEmptyTask).1 = some "u1" ∧
    (smClaimNextTask "dev1" 5 90 cSMLedgerEmptyTask).2.2 = true ∧
    ¬ (smClaimNextTask "dev1" 5 90 cSMLedgerEmptyTask).2.1 = cSMLedgerEmptyTask := by
  decide

/-- C10 amended: when the calling node's entry records a non-null,
non-empty `current_task`, `claim_next` returns that task id, changes
nothing and writes nothing. -/
theorem sm_claim_next_busy (dev : String) (now battery : Int) (l : SMLedger)
    (n : SMNode) (s : String) (h1 : smLookup dev l.nodes = some n)
    (h2 : n.current_task = some s) (h3 : ¬ s = "") :
    smClaimNextTask dev now battery l = (some s, l, false) := by
  simp [smClaimNextTask, h1, h2, optStrTruthy, h3]

/-- C10 amended witness: node `dev1` holding `u7` gets `u7` back with no
ledger change. -/
theorem sm_claim_next_busy_witness :
    smClaimNextTask "dev1" 5 90 cSMLedgerBusy = (some "u7", cSMLedgerBusy, false) :=
  sm_claim_next_busy "dev1" 5 90 cSMLedgerBusy cNodeBusy "u7" (by rfl) (by rfl)
    (by decide)
